import Mathlib

/-!
Verification of the command-dispatch library `gostartkit/cmd`.

The development shallowly embeds the command data model and the
resolution / dispatch logic of `src/cmd.go` (and, where it differs, the
variant implementation in `src/unnamed/part_001`) as pure Lean
functions, and proves or refutes the specification's claims about them.

Modelling conventions:
* Go slices of commands become `List Command`; a `nil` result of
  `Commands.Search` becomes `none`.
* The `Run` function pointer is modelled by a `runnable : Bool` field
  (`Run != nil`); handler bodies are outside the resolution logic.
* Go errors are modelled by their message strings in `Except String`;
  `fmt.Errorf("%w, ...", ErrNotFound)` renders `ErrNotFound` as the text
  "not found", exactly as `err.Error()` would print it.
* `os.Exit` / writes to standard streams are modelled by an explicit
  `ExecResult` value recording which stream usage text went to and the
  process exit status.
-/

namespace GoCmd

/-- The `Command` struct of `src/cmd.go` (resolution-relevant fields).
`runnable` stands for `Run != nil`; the `flag` field and the hooks are
not part of the resolution logic. -/
inductive Command where
  | mk (name : String) (aliases : List String) (usageLine : String)
      (short : String) (long : String) (runnable : Bool)
      (subCommands : List Command)

def Command.name : Command → String
  | .mk n _ _ _ _ _ _ => n

def Command.aliases : Command → List String
  | .mk _ a _ _ _ _ _ => a

def Command.usageLine : Command → String
  | .mk _ _ u _ _ _ _ => u

def Command.short : Command → String
  | .mk _ _ _ s _ _ _ => s

def Command.long : Command → String
  | .mk _ _ _ _ l _ _ => l

/-- `Command.Runnable`: `c.Run != nil`. -/
def Command.runnable : Command → Bool
  | .mk _ _ _ _ _ r _ => r

def Command.subCommands : Command → List Command
  | .mk _ _ _ _ _ _ s => s

/-- `contains` of `src/cmd.go`: linear scan of a string slice. -/
def contains (slice : List String) (str : String) : Bool :=
  match slice with
  | [] => false
  | s :: rest => if s = str then true else contains rest str

/-- `Commands.Search` of `src/cmd.go`: first command whose name or
alias list matches, `nil` (here `none`) otherwise. -/
def search (cmds : List Command) (name : String) : Option Command :=
  match cmds with
  | [] => none
  | cmd :: rest =>
    if cmd.name = name || contains cmd.aliases name then some cmd
    else search rest name

/-- Go `%q` on the short names involved here: surrounding quotes. -/
def quoted (s : String) : String := "\"" ++ s ++ "\""

/-- `findCommand` of `src/cmd.go`: recursive greedy resolution with
fallback to the parent on subcommand failure.  Errors carry the
rendered Go error message. -/
def findCommand : List Command → List String → Except String (Command × List String)
  | _, [] => .error ("not found, no command provided")
  | cmds, a :: rest =>
    match search cmds a with
    | none => .error ("not found, unknown command " ++ quoted a)
    | some cmd =>
      if rest.length > 0 ∧ cmd.subCommands.length > 0 then
        match findCommand cmd.subCommands rest with
        | .ok r => .ok r
        | .error _ => .ok (cmd, rest)
      else .ok (cmd, rest)

/-- `findCommand` of `src/unnamed/part_001`: identical control flow,
error messages built as `fmt.Errorf("...: %w", ErrNotFound)`. -/
def findCommandB : List Command → List String → Except String (Command × List String)
  | _, [] => .error ("no command provided: not found")
  | cmds, a :: rest =>
    match search cmds a with
    | none => .error ("unknown command " ++ quoted a ++ ": not found")
    | some cmd =>
      if rest.length > 0 ∧ cmd.subCommands.length > 0 then
        match findCommandB cmd.subCommands rest with
        | .ok r => .ok r
        | .error _ => .ok (cmd, rest)
      else .ok (cmd, rest)

/-- `setExitStatus` of `src/cmd.go`: raise the accumulator, never lower
it (`if _exitStatus < n { _exitStatus = n }`). -/
def setExitStatus (st n : Int) : Int :=
  if st < n then n else st

/-- The initial value of the `_exitStatus` accumulator. -/
def initialExitStatus : Int := 0

/-- Status effect of `errorf`: log, then `setExitStatus(1)`. -/
def errorfStatus (st : Int) : Int := setExitStatus st 1

/-- Status effect of `fatalf`: `errorf` then `exit()`; the process
terminates with the accumulated status. -/
def fatalfStatus (st : Int) : Int := errorfStatus st

/-- The two standard streams usage text can be rendered to. -/
inductive Stream where
  | stdout
  | stderr
deriving DecidableEq

/-- Observable outcome of one dispatch: which terminal action the
control flow of `Execute` / `help` reaches. -/
inductive ExecResult where
  /-- `usage()`: program-level usage rendered to a stream, `os.Exit`
  with the given status. -/
  | usageExit (s : Stream) (status : Int)
  /-- `fatalf(msg)`: message logged to the error stream, process exits
  with the accumulated status. -/
  | fatal (msg : String) (status : Int)
  /-- command-level usage rendered (to standard output in `src/cmd.go`);
  control returns and the process ends with status 0. -/
  | cmdUsage (c : Command)
  /-- resolution succeeded; flag binding and the handler run next. -/
  | run (c : Command) (rem : List String)

/-- Exit status of an outcome, when it is determined by the dispatch
logic alone (`none` when a handler still runs). -/
def ExecResult.exitStatus : ExecResult → Option Int
  | .usageExit _ s => some s
  | .fatal _ s => some s
  | .cmdUsage _ => some 0
  | .run _ _ => none

/-- The `fatalf` message of an outcome, if any. -/
def ExecResult.message : ExecResult → Option String
  | .fatal m _ => some m
  | _ => none

/-- `help` of `src/cmd.go`: zero args renders program usage via
`usage()` (error stream, exit 2); otherwise the whole arg vector is
resolved, failure is fatal, success renders the command's usage. -/
def helpA (registry : List Command) (args : List String) (st : Int) : ExecResult :=
  match args with
  | [] => .usageExit .stderr 2
  | a :: _ =>
    match findCommand registry args with
    | .error e => .fatal ("help(" ++ a ++ "): " ++ e ++ " \n") (setExitStatus st 1)
    | .ok (c, _) => .cmdUsage c

/-- `help` of `src/unnamed/part_001`: additionally rejects more than
one argument with a fatal "Too many arguments." message.  The
command-usage rendering step it reaches on success is modelled by
`ExecResult.cmdUsage`; the claims under verification only concern the
branch selection and the error paths, not the rendering itself. -/
def helpB (registry : List Command) (args : List String) (st : Int) : ExecResult :=
  match args with
  | [] => .usageExit .stderr 2
  | a :: rest =>
    if (a :: rest).length > 1 then
      .fatal ("Usage: help <command>\n\nToo many arguments.\n") (setExitStatus st 1)
    else
      match findCommandB registry args with
      | .error e => .fatal ("help(" ++ a ++ "): " ++ e ++ " \n") (setExitStatus st 1)
      | .ok (c, _) => .cmdUsage c

/-- `Execute` of `src/cmd.go`, up to the point where flag binding and
the handler take over: empty args render program usage (error stream,
exit 2); the reserved word `help` dispatches to `helpA`; otherwise the
resolver runs and a resolution failure is fatal. -/
def execute (registry : List Command) (args : List String) (st : Int) : ExecResult :=
  match args with
  | [] => .usageExit .stderr 2
  | a :: rest =>
    if a = "help" then helpA registry rest st
    else
      match findCommand registry args with
      | .error e => .fatal ("cmd(" ++ a ++ "): " ++ e ++ " \n") (setExitStatus st 1)
      | .ok (c, rem) => .run c rem

/-- One declared flag as `flag.VisitAll` presents it: a name and a
usage string. -/
structure FlagDecl where
  name : String
  usage : String
deriving DecidableEq

/-- Go `%-*s`: left-justify `s` in a field of minimum width `w` by
appending spaces. -/
def padRight (s : String) (w : Nat) : String :=
  s ++ String.mk (List.replicate (w - s.length) ' ')

/-- The `maxLen` computation of `Command.Usage` over the flag set:
largest flag-name length, starting from 0. -/
def maxFlagLen (flags : List FlagDecl) : Nat :=
  flags.foldl (fun m f => if f.name.length > m then f.name.length else m) 0

/-- One line of the Flags section of `Command.Usage`:
`"  --%-*s %s\n"` with width `maxLen+2` for multi-character names,
`"  -%-*s %s\n"` with width `maxLen+3` otherwise. -/
def flagLine (maxLen : Nat) (f : FlagDecl) : String :=
  if f.name.length > 1 then
    "  --" ++ padRight f.name (maxLen + 2) ++ " " ++ f.usage ++ "\n"
  else
    "  -" ++ padRight f.name (maxLen + 3) ++ " " ++ f.usage ++ "\n"

/-- The whole Flags section body: `VisitAll` rendering each flag with
the shared `maxLen`. -/
def flagsSection (flags : List FlagDecl) : List String :=
  flags.map (flagLine (maxFlagLen flags))

/-- Observable part of a resolution result: the resolved command's
name and the remaining arguments (`none` on error).  Used to compare
resolution outcomes without an equality test on `Command`. -/
def resolved (r : Except String (Command × List String)) : Option (String × List String) :=
  r.toOption.map (fun p => (p.1.name, p.2))

/-! Concrete commands used as test data for witnesses and
counterexamples.  `versionCmd` is the registry of the specification's
end-to-end scenarios; `remoteCmd` has one leaf subcommand `add`;
`remoteDeep` nests a further level `origin` below `add`. -/

def versionCmd : Command := ⟨"version", ["ver"], "version", "display version", "", true, []⟩

def addLeaf : Command := ⟨"add", [], "", "", "", true, []⟩

def remoteCmd : Command := ⟨"remote", [], "", "", "", false, [addLeaf]⟩

def originCmd : Command := ⟨"origin", [], "", "", "", true, []⟩

def addDeep : Command := ⟨"add", [], "", "", "", true, [originCmd]⟩

def remoteDeep : Command := ⟨"remote", [], "", "", "", false, [addDeep]⟩

/-- A command whose canonical name is `y` and whose alias is `x`. -/
def aliasCmd : Command := ⟨"y", ["x"], "", "", "", true, []⟩

/-- A command named `x`, shadowing the alias `x` of `shadowY` when it
comes first in the registry. -/
def shadowX : Command := ⟨"x", [], "", "", "", true, []⟩

def shadowY : Command := ⟨"y", ["x"], "", "", "", true, []⟩

/-- Flag set used by the flag-rendering witness. -/
def flagsEx : List FlagDecl := [⟨"v", "verbose"⟩, ⟨"force", "force the operation"⟩]


/-! ## Helper lemmas -/

theorem string_mk_length (l : List Char) : (String.mk l).length = l.length := rfl

theorem padRight_length (s : String) (w : Nat) (h : s.length ≤ w) :
    (padRight s w).length = w := by
  simp only [padRight, String.length_append, string_mk_length, List.length_replicate]
  omega

theorem foldl_max_acc_le (l : List FlagDecl) : ∀ acc : Nat,
    acc ≤ l.foldl (fun m g => if g.name.length > m then g.name.length else m) acc := by
  induction l with
  | nil => intro acc; simp
  | cons g rest ih =>
    intro acc
    simp only [List.foldl_cons]
    refine le_trans ?_ (ih _)
    split <;> omega

theorem foldl_max_mem_le (l : List FlagDecl) : ∀ (acc : Nat) (f : FlagDecl), f ∈ l →
    f.name.length ≤ l.foldl (fun m g => if g.name.length > m then g.name.length else m) acc := by
  induction l with
  | nil => intro _ f hf; exact absurd hf (List.not_mem_nil f)
  | cons g rest ih =>
    intro acc f hf
    simp only [List.foldl_cons]
    rcases List.mem_cons.mp hf with rfl | hf
    · refine le_trans ?_ (foldl_max_acc_le rest _)
      split <;> omega
    · exact ih _ f hf

theorem name_le_maxFlagLen (flags : List FlagDecl) (f : FlagDecl) (hf : f ∈ flags) :
    f.name.length ≤ maxFlagLen flags :=
  foldl_max_mem_le flags 0 f hf

/-! ## Claim theorems -/

/-- C2. `findCommand` returns a NotFound error iff the argument vector
is empty or its first token matches no command name and no alias in the
registry; once the first token matches some command, resolution never
fails, whatever the later tokens are. -/
theorem findCommand_error_iff (cmds : List Command) (args : List String) :
    (findCommand cmds args).toOption = none ↔
      (args = [] ∨ ∃ a rest, args = a :: rest ∧ search cmds a = none) := by
  cases args with
  | nil => simp [findCommand, Except.toOption]
  | cons a rest =>
    cases hs : search cmds a with
    | none =>
      constructor
      · intro _
        exact Or.inr ⟨a, rest, rfl, hs⟩
      · intro _
        simp [findCommand, hs, Except.toOption]
    | some cmd =>
      have hok : ∃ v, findCommand cmds (a :: rest) = .ok v := by
        simp only [findCommand, hs]
        split
        · split
          · next r heq => exact ⟨r, rfl⟩
          · next e heq => exact ⟨(cmd, rest), rfl⟩
        · exact ⟨(cmd, rest), rfl⟩
      obtain ⟨v, hv⟩ := hok
      rw [hv]
      simp only [Except.toOption]
      constructor
      · intro h
        simp at h
      · rintro (h | ⟨b, brest, heq, hsn⟩)
        · simp at h
        · injection heq with h1 h2
          subst h1
          rw [hs] at hsn
          simp at hsn

/-- C7. The exit-status accumulator starts at 0, `setExitStatus` takes
the maximum of the stored value and its argument (so it is monotone
non-decreasing), and `errorf`/`fatalf` raise the status to at least 1. -/
theorem exit_status_accumulator :
    initialExitStatus = 0 ∧
    (∀ st n : Int, setExitStatus st n = max st n) ∧
    (∀ st n : Int, st ≤ setExitStatus st n) ∧
    (∀ st : Int, 1 ≤ errorfStatus st) ∧
    (∀ st : Int, 1 ≤ fatalfStatus st) := by
  refine ⟨rfl, ?_, ?_, ?_, ?_⟩
  · intro st n
    simp only [setExitStatus]
    split
    · next h => exact (max_eq_right h.le).symm
    · next h => exact (max_eq_left (not_lt.mp h)).symm
  · intro st n
    simp only [setExitStatus]
    split <;> omega
  · intro st
    simp only [errorfStatus, setExitStatus]
    split <;> omega
  · intro st
    simp only [fatalfStatus, errorfStatus, setExitStatus]
    split <;> omega

/-- C9. Whenever `findCommand` succeeds it returns a command together
with a strict suffix `args.drop k` (`k ≥ 1`) of the input vector: one
token is consumed per resolution level, so the remaining arguments are
strictly shorter than the input. -/
theorem findCommand_suffix (args : List String) :
    ∀ (cmds : List Command) (c : Command) (rem : List String),
      findCommand cmds args = .ok (c, rem) →
      ∃ k, 1 ≤ k ∧ rem = args.drop k ∧ rem.length < args.length := by
  induction args with
  | nil =>
    intro cmds c rem h
    simp [findCommand] at h
  | cons a rest ih =>
    intro cmds c rem h
    simp only [findCommand] at h
    split at h
    · exact absurd h (by simp)
    · next cmd hs =>
      split at h
      · split at h
        · next r heq =>
          simp only [Except.ok.injEq] at h
          subst h
          obtain ⟨k, hk1, hk2, hk3⟩ := ih cmd.subCommands c rem heq
          refine ⟨k + 1, by omega, ?_, ?_⟩
          · rw [List.drop_succ_cons]
            exact hk2
          · simp only [List.length_cons]
            omega
        · next e heq =>
          simp only [Except.ok.injEq, Prod.mk.injEq] at h
          obtain ⟨rfl, rfl⟩ := h
          exact ⟨1, le_refl 1, by simp, by simp⟩
      · simp only [Except.ok.injEq, Prod.mk.injEq] at h
        obtain ⟨rfl, rfl⟩ := h
        exact ⟨1, le_refl 1, by simp, by simp⟩

/-- Witness for C9 at a concrete input: resolving `["version", "x"]`
against the singleton `version` registry leaves the strict suffix
`["x"]`. -/
theorem findCommand_suffix_witness :
    ∃ k, 1 ≤ k ∧ (["x"] : List String) = (["version", "x"] : List String).drop k ∧
      (["x"] : List String).length < (["version", "x"] : List String).length :=
  findCommand_suffix ["version", "x"] [versionCmd] versionCmd ["x"] rfl

/-- C10. The two resolver variants (`src/cmd.go` and
`src/unnamed/part_001`) agree on success and failure and, on success,
on the resolved command and remaining arguments; only their error
message texts differ. -/
theorem findCommand_variants_agree (args : List String) :
    ∀ cmds : List Command,
      (findCommand cmds args).toOption = (findCommandB cmds args).toOption := by
  induction args with
  | nil => intro cmds; rfl
  | cons a rest ih =>
    intro cmds
    simp only [findCommand, findCommandB]
    cases hs : search cmds a with
    | none => rfl
    | some cmd =>
      dsimp only
      by_cases hb : rest.length > 0 ∧ cmd.subCommands.length > 0
      · rw [if_pos hb, if_pos hb]
        have hih := ih cmd.subCommands
        cases h1 : findCommand cmd.subCommands rest <;>
          cases h2 : findCommandB cmd.subCommands rest <;>
            rw [h1, h2] at hih <;>
              simp_all [Except.toOption]
      · rw [if_neg hb, if_neg hb]

/-- C8. In the Flags section of command-level usage rendering, a
single-character flag name is printed behind exactly one dash, a longer
name behind exactly two dashes, and every line places its usage text at
the same column, determined by the longest flag name. -/
theorem flag_rendering (flags : List FlagDecl) (f : FlagDecl) (hf : f ∈ flags) :
    (f.name.length = 1 →
      flagLine (maxFlagLen flags) f =
        "  " ++ "-" ++ padRight f.name (maxFlagLen flags + 3) ++ " " ++ f.usage ++ "\n") ∧
    (1 < f.name.length →
      flagLine (maxFlagLen flags) f =
        "  " ++ "--" ++ padRight f.name (maxFlagLen flags + 2) ++ " " ++ f.usage ++ "\n") ∧
    (∃ pre, flagLine (maxFlagLen flags) f = pre ++ (f.usage ++ "\n") ∧
      pre.length = maxFlagLen flags + 7) := by
  have hle : f.name.length ≤ maxFlagLen flags := name_le_maxFlagLen flags f hf
  refine ⟨?_, ?_, ?_⟩
  · intro h1
    unfold flagLine
    rw [if_neg (by omega)]
    rfl
  · intro h2
    unfold flagLine
    rw [if_pos (by omega)]
    rfl
  · by_cases h : f.name.length > 1
    · refine ⟨"  --" ++ padRight f.name (maxFlagLen flags + 2) ++ " ", ?_, ?_⟩
      · unfold flagLine
        rw [if_pos h]
        simp [String.append_assoc]
      · have hp := padRight_length f.name (maxFlagLen flags + 2) (by omega)
        have h4 : ("  --" : String).length = 4 := rfl
        have hsp : (" " : String).length = 1 := rfl
        simp only [String.length_append, hp, h4, hsp]
        omega
    · refine ⟨"  -" ++ padRight f.name (maxFlagLen flags + 3) ++ " ", ?_, ?_⟩
      · unfold flagLine
        rw [if_neg h]
        simp [String.append_assoc]
      · have hp := padRight_length f.name (maxFlagLen flags + 3) (by omega)
        have h3 : ("  -" : String).length = 3 := rfl
        have hsp : (" " : String).length = 1 := rfl
        simp only [String.length_append, hp, h3, hsp]
        omega

/-- Witness for C8 at the concrete flag set `flagsEx`, on its single
character flag `v`. -/
theorem flag_rendering_witness :
    (⟨"v", "verbose"⟩ : FlagDecl) ∈ flagsEx ∧
    ((("v" : String).length = 1 →
      flagLine (maxFlagLen flagsEx) ⟨"v", "verbose"⟩ =
        "  " ++ "-" ++ padRight ("v") (maxFlagLen flagsEx + 3) ++ " " ++ ("verbose") ++ "\n") ∧
     (1 < ("v" : String).length →
      flagLine (maxFlagLen flagsEx) ⟨"v", "verbose"⟩ =
        "  " ++ "--" ++ padRight ("v") (maxFlagLen flagsEx + 2) ++ " " ++ ("verbose") ++ "\n") ∧
     (∃ pre, flagLine (maxFlagLen flagsEx) ⟨"v", "verbose"⟩ = pre ++ (("verbose" : String) ++ "\n") ∧
       pre.length = maxFlagLen flagsEx + 7)) :=
  ⟨by simp [flagsEx], flag_rendering flagsEx ⟨"v", "verbose"⟩ (by simp [flagsEx])⟩

/-- C1 (amended). For a command `C` with subcommands, resolved from a
registry in which `C.name` looks up to `C`: when some `sub` in
`C.subCommands` matches `s` and resolution does not descend further
(no extra arguments, or `sub` has no subcommands, or the extra
arguments fail to resolve against them), the resolver returns `sub`
with remaining arguments `[extra...]`; when no subcommand matches `s`,
it falls back to `C` itself with remaining arguments `[s, extra...]`. -/
theorem resolve_one_level (R : List Command) (C : Command) (s : String) (extra : List String)
    (hC : search R C.name = some C) (hsub : C.subCommands.length > 0) :
    (∀ sub : Command, search C.subCommands s = some sub →
        (extra = [] ∨ sub.subCommands = [] ∨ (findCommand sub.subCommands extra).toOption = none) →
        findCommand R (C.name :: s :: extra) = .ok (sub, extra)) ∧
    (search C.subCommands s = none →
        findCommand R (C.name :: s :: extra) = .ok (C, s :: extra)) := by
  constructor
  · intro sub hfind hstop
    simp only [findCommand, hC, hfind]
    rw [if_pos ⟨by simp, hsub⟩]
    rcases hstop with rfl | hempty | hnone
    · rw [if_neg (by simp)]
    · rw [if_neg (by simp [hempty])]
    · by_cases hcond : extra.length > 0 ∧ sub.subCommands.length > 0
      · rw [if_pos hcond]
        cases hin : findCommand sub.subCommands extra with
        | ok v =>
          rw [hin] at hnone
          simp [Except.toOption] at hnone
        | error e =>
          rfl
      · rw [if_neg hcond]
  · intro hnone
    simp only [findCommand, hC, hnone]
    rw [if_pos ⟨by simp, hsub⟩]

/-- Witness for C1 (amended) on the `remote`/`add` registry of the
specification scenarios: `remote add origin` resolves to the leaf
subcommand `add` with remaining arguments `["origin"]`. -/
theorem resolve_one_level_witness :
    search [remoteCmd] remoteCmd.name = some remoteCmd ∧
    remoteCmd.subCommands.length > 0 ∧
    search remoteCmd.subCommands ("add") = some addLeaf ∧
    findCommand [remoteCmd] ["remote", "add", "origin"] = .ok (addLeaf, ["origin"]) :=
  ⟨rfl, by decide, rfl,
    (resolve_one_level [remoteCmd] remoteCmd ("add") ["origin"] rfl (by decide)).1 addLeaf rfl
      (Or.inr (Or.inl rfl))⟩

/-- Counterexample to C1 as stated: in `remoteDeep` the subcommand
`add` of `remote` exists and matches the second token, yet resolving
`["remote", "add", "origin"]` descends one level further and returns
`origin` with no remaining arguments, not `add` with `["origin"]`. -/
theorem resolve_one_level_counterexample :
    search remoteDeep.subCommands ("add") = some addDeep ∧
    resolved (findCommand [remoteDeep] ["remote", "add", "origin"]) = some ("origin", []) ∧
    some (("origin", []) : String × List String) ≠ some ("add", ["origin"]) :=
  ⟨rfl, rfl, by decide⟩

/-- C6 (amended). Resolving by an alias yields the same result as
resolving by the canonical name, provided both tokens look up to that
same command in the registry (no earlier sibling shadows either). -/
theorem alias_resolution (R : List Command) (C : Command) (a n : String) (tail : List String)
    (_halias : contains C.aliases a = true) (_hname : C.name = n)
    (ha : search R a = some C) (hn : search R n = some C) :
    findCommand R (a :: tail) = findCommand R (n :: tail) := by
  simp only [findCommand, ha, hn]

/-- Witness for C6 (amended): `aliasCmd` has canonical name `y` and
alias `x`; both resolve identically with a trailing argument. -/
theorem alias_resolution_witness :
    contains aliasCmd.aliases ("x") = true ∧ aliasCmd.name = "y" ∧
    search [aliasCmd] ("x") = some aliasCmd ∧ search [aliasCmd] ("y") = some aliasCmd ∧
    findCommand [aliasCmd] ["x", "t"] = findCommand [aliasCmd] ["y", "t"] :=
  ⟨rfl, rfl, rfl, rfl, alias_resolution [aliasCmd] aliasCmd ("x") ("y") ["t"] rfl rfl rfl rfl⟩

/-- Counterexample to C6 as stated: `shadowY` carries alias `x` with
canonical name `y`, but the sibling `shadowX` named `x` comes first in
the registry, so the alias resolves to a different command than the
canonical name. -/
theorem alias_resolution_counterexample :
    contains shadowY.aliases ("x") = true ∧ shadowY.name = "y" ∧
    resolved (findCommand [shadowX, shadowY] ["x"]) ≠
      resolved (findCommand [shadowX, shadowY] ["y"]) :=
  ⟨rfl, rfl, by decide⟩

/-- C3 (amended). Executing `["bogus"]` against the `version`-only
registry logs an error line containing `unknown command "bogus"` to the
error stream and terminates the process with accumulated exit status 1. -/
theorem unknown_command_exit :
    ∃ pre post, execute [versionCmd] ["bogus"] initialExitStatus =
      .fatal (pre ++ "unknown command \"bogus\"" ++ post) 1 :=
  ⟨"cmd(bogus): not found, ", " \n", rfl⟩

/-- Counterexample to C3 as stated: the process exit status for the
unknown command `bogus` is 1, not 2. -/
theorem unknown_command_exit_counterexample :
    (execute [versionCmd] ["bogus"] initialExitStatus).exitStatus = some 1 ∧
    ((execute [versionCmd] ["bogus"] initialExitStatus).exitStatus ≠ some 2) :=
  ⟨rfl, by decide⟩

/-- C4 (amended). The reserved token `help` with no further argument
renders the program-level usage to the error stream and the process
terminates with exit status 2. -/
theorem help_no_args (R : List Command) (st : Int) :
    execute R ["help"] st = .usageExit .stderr 2 := rfl

/-- Counterexample to C4 as stated: `help` with no further argument
goes to the error stream with status 2, not standard output with
status 0. -/
theorem help_no_args_counterexample :
    execute [versionCmd] ["help"] initialExitStatus = .usageExit .stderr 2 ∧
    Stream.stderr ≠ Stream.stdout ∧ ((2 : Int) ≠ 0) :=
  ⟨rfl, by decide, by decide⟩

/-- C5 (amended). In the `src/unnamed/part_001` variant, `help` with
more than one further argument reports "Too many arguments." and the
process terminates with the accumulated exit status 1, not 2 (the
`src/cmd.go` variant has no such check at all). -/
theorem help_too_many_args (R : List Command) (a b : String) (rest : List String) (st : Int) :
    helpB R (a :: b :: rest) st =
      .fatal ("Usage: help <command>\n\nToo many arguments.\n") (setExitStatus st 1) := by
  simp only [helpB]
  rw [if_pos (by simp)]

/-- Counterexample to C5 as stated: the "Too many arguments." path of
the `part_001` help terminates with status 1, not 2. -/
theorem help_too_many_args_counterexample :
    (helpB [] ["a", "b"] initialExitStatus).message =
      some ("Usage: help <command>\n\nToo many arguments.\n") ∧
    (helpB [] ["a", "b"] initialExitStatus).exitStatus = some 1 ∧
    ((helpB [] ["a", "b"] initialExitStatus).exitStatus ≠ some 2) :=
  ⟨rfl, rfl, by decide⟩

end GoCmd
